import Mathlib

/-!
Verification development for `src/traitement/export.py` of the repository
`tf-elastic-get-objects`: a report generator that loads Elasticsearch index
metadata from JSON, groups index records by base name, keeps the latest N per
group (stable descending sort on the numeric creation date), classifies each
retained record against two required field values, and renders console tables.

The Python code is shallowly embedded below.  Strings are modelled as Lean
`String` / `List Char` (ASCII digit classes stand in for Python's Unicode digit
classes; the inputs the program is written for are ASCII index names and
decimal epoch timestamps).  JSON dictionaries holding the fixed fields the
code reads are modelled as structures with `Option String` fields (`none` =
key absent).  Python `dict` insertion-order semantics are modelled by
association lists (`GroupsOf`), with `appendToGroup` / `findGroup` mirroring
`d.setdefault`-style append and key lookup.
-/

namespace ElasticExport

/-! ### Python primitive helpers -/

/-- Python truthiness of an optional string: `None` and `""` are falsy
(`if not current_index_pattern`, `if not index_name or not creation_date_str`). -/
def pyFalsy : Option String → Bool
  | none => true
  | some s => s.isEmpty

/-- ASCII whitespace accepted (and stripped) by Python `int(str)`. -/
def isPySpace (c : Char) : Bool :=
  c = ' ' || c = '\t' || c = '\x0a' || c = '\x0b' || c = '\x0c' || c = '\x0d'

/-- Drop the longest suffix of `l` whose characters satisfy `p`. -/
def dropEndWhile (p : Char → Bool) (l : List Char) : List Char :=
  (l.reverse.dropWhile p).reverse

/-- After the first digit of a Python integer literal body: every underscore
must be immediately followed by a digit, all other characters are digits. -/
def intBodyRest : List Char → Bool
  | [] => true
  | '_' :: c :: rest => c.isDigit && intBodyRest rest
  | c :: rest => c.isDigit && intBodyRest rest

/-- Digit run accepted by Python `int(str)` after the optional sign:
nonempty, starts with a digit, single underscores only between digits. -/
def intBody : List Char → Bool
  | [] => false
  | c :: rest => c.isDigit && intBodyRest rest

/-- Numeric value of a digit list (underscores removed beforehand). -/
def digitsVal (l : List Char) : Nat :=
  l.foldl (fun n c => n * 10 + (c.toNat - 48)) 0

/-- Model of Python `int(s)` on strings: optional surrounding whitespace,
optional single sign, then digits with optional underscores between digits.
Returns `none` where Python raises `ValueError`. -/
def pyInt (s : String) : Option Int :=
  let t := dropEndWhile isPySpace (s.data.dropWhile isPySpace)
  match t with
  | '+' :: rest =>
      if intBody rest then some (Int.ofNat (digitsVal (rest.filter (fun c => c != '_')))) else none
  | '-' :: rest =>
      if intBody rest then some (-(Int.ofNat (digitsVal (rest.filter (fun c => c != '_'))))) else none
  | rest =>
      if intBody rest then some (Int.ofNat (digitsVal (rest.filter (fun c => c != '_')))) else none

/-- Model of Python `str.isdigit()`: nonempty and all characters digits
(ASCII model of the Unicode digit class). -/
def pyIsDigitStr (s : String) : Bool :=
  !s.data.isEmpty && s.data.all Char.isDigit

/-! ### Configuration constants (lines 8-17 of `export.py`) -/

def NUM_LATEST_INDEXES_PER_BASE_NAME : Nat := 2

def REQUIRED_INDEX_MODE : String := "logsdb"

def REQUIRED_HOST_NAME_FIELD_TYPE : String := "keyword"

def STATUS_ICON_ALL_MATCH : String := "✅😁"

def STATUS_ICON_PARTIAL_MATCH : String := "⚠️"

def STATUS_ICON_NO_MATCH : String := "❌😮"

/-! ### `extract_index_base_name` (lines 38-54)

The code runs `re.search(r'-\d{4}\.\d{2}\.\d{2}-\d{6}(?:-\d+)?$', index_name)`
and on a match returns `index_name[:match.start()]`, otherwise the input.

`re.search` returns the leftmost position whose suffix matches.  Because the
pattern is `$`-anchored, "the suffix starting at `i` matches" is a property of
`s.drop i` alone.  Python's `$` (without `re.MULTILINE`) matches at the very
end of the string, or just before a single final `'\n'`.  After the fixed
18-character block `-dddd.dd.dd-dddddd`, the greedy optional group `(?:-\d+)?`
plus the `$` assertion accept exactly: nothing, a final `'\n'`, or `'-'`
followed by one or more digits and then optionally a final `'\n'`. -/

/-- Character of `l` at index `i` is a digit. -/
def isDigitAt (l : List Char) (i : Nat) : Bool :=
  (l[i]?.map Char.isDigit).getD false

/-- Character of `l` at index `i` is exactly `c`. -/
def isCharAt (l : List Char) (i : Nat) (c : Char) : Bool :=
  l[i]? == some c

/-- The fixed-width block `-\d{4}\.\d{2}\.\d{2}-\d{6}` (exactly 18 chars). -/
def isDateSeqCore (t : List Char) : Bool :=
  t.length == 18 &&
  isCharAt t 0 '-' && isDigitAt t 1 && isDigitAt t 2 && isDigitAt t 3 && isDigitAt t 4 &&
  isCharAt t 5 '.' && isDigitAt t 6 && isDigitAt t 7 &&
  isCharAt t 8 '.' && isDigitAt t 9 && isDigitAt t 10 &&
  isCharAt t 11 '-' && isDigitAt t 12 && isDigitAt t 13 && isDigitAt t 14 &&
  isDigitAt t 15 && isDigitAt t 16 && isDigitAt t 17

/-- Remove one final `'\n'` if present (Python `$` may assert just before it). -/
def stripFinalNewline (r : List Char) : List Char :=
  if r.getLast? = some '\x0a' then r.dropLast else r

/-- What `(?:-\d+)?$` accepts after the fixed block, under Python's `$`
semantics (end of string, or just before one final newline): nothing, or
`'-'` followed by at least one digit. -/
def tailOK (r : List Char) : Bool :=
  (stripFinalNewline r).isEmpty ||
    ((stripFinalNewline r).head? == some '-' &&
      !(stripFinalNewline r).tail.isEmpty &&
      (stripFinalNewline r).tail.all Char.isDigit)

/-- The regex matches the whole suffix `t` (i.e. `re.search` can succeed at
the position where `t` starts). -/
def matchesDateSeq (t : List Char) : Bool :=
  isDateSeqCore (t.take 18) && tailOK (t.drop 18)

/-- Leftmost position whose suffix matches the regex — the `match.start()`
of `re.search` (the empty suffix never matches, so stopping at `[]` is
faithful). -/
def findMatchPos : List Char → Option Nat
  | [] => none
  | c :: cs => if matchesDateSeq (c :: cs) then some 0 else (findMatchPos cs).map (· + 1)

/-- `extract_index_base_name` on the character list: `index_name[:match.start()]`
when the regex matches, the input unchanged otherwise. -/
def extractBase (s : List Char) : List Char :=
  match findMatchPos s with
  | some i => s.take i
  | none => s

/-- `extract_index_base_name` (lines 38-54). -/
def extract_index_base_name (index_name : String) : String :=
  ⟨extractBase index_name.data⟩

/-! ### `get_readable_date` (lines 20-36)

`int(timestamp_ms_str)` raising `ValueError`/`TypeError` is caught.  But the
true division `creation_timestamp_ms / 1000` raises an uncaught
`OverflowError` when the integer quotient exceeds the float range, and
`datetime.fromtimestamp` raises an uncaught `OverflowError` when the value is
out of the platform `time_t` range (its `ValueError` for out-of-range years
*is* caught).  The float division, range checks and local-time `strftime`
formatting of `datetime.fromtimestamp(n / 1000).strftime('%Y-%m-%d %H:%M:%S')`
are platform/timezone-dependent and are abstracted into a `fromts` parameter;
the unconditional big-integer overflow of `n / 1000` (certain whenever
`|n| ≥ 1000·2^1024`, far below our test value) is modelled explicitly. -/

/-- Abstract outcome of `datetime.fromtimestamp(n / 1000).strftime(...)`. -/
inductive FromTsOutcome where
  | formatted (s : String)
  | valueError
  | overflowError
deriving DecidableEq

/-- Result of `get_readable_date`: a returned string, or an uncaught
exception escaping the function. -/
inductive DateResult where
  | ok (s : String)
  | raises
deriving DecidableEq

/-- `n / 1000` (Python true division of a big int) certainly overflows the
float range: a conservative, sufficient bound. -/
def pyDivOverflows (n : Int) : Bool :=
  decide (1000 * 2 ^ 1024 ≤ n.natAbs)

/-- `get_readable_date` (lines 20-36), parameterized by the platform/timezone
dependent `fromts` outcome for in-float-range timestamps. -/
def get_readable_date (fromts : Int → FromTsOutcome) (timestamp_ms_str : String) : DateResult :=
  match pyInt timestamp_ms_str with
  | none => .ok "Invalid Date"
  | some n =>
      if pyDivOverflows n then .raises
      else
        match fromts n with
        | .formatted s => .ok s
        | .valueError => .ok "Invalid Date"
        | .overflowError => .raises

/-! ### Data model -/

/-- One entry of an `"indexes"` list: the four fields the code reads
(`none` = key absent in the JSON object). -/
structure RawIndex where
  index_name : Option String
  index_creation_date : Option String
  index_mode : Option String
  host_name_fieldsType : Option String
deriving DecidableEq

/-- One entry of `Elasticsearch_indices.value`: a declared pattern
(`none` = key absent) and its index list (`.get("indexes", [])`). -/
structure PatternEntry where
  index_pattern : Option String
  indexes : List RawIndex
deriving DecidableEq

/-- `index.copy()` augmented with `index_copy['original_index_pattern']`
(line 121-122); `original_index_pattern = none` models a dict lacking the key
(possible when `analyze_index_details` is fed records not built by the
grouper). -/
structure AugIndex where
  index_name : Option String
  index_creation_date : Option String
  index_mode : Option String
  host_name_fieldsType : Option String
  original_index_pattern : Option String
deriving DecidableEq

/-- The row dict appended by `analyze_index_details` (lines 186-193). -/
structure ClassifiedRecord where
  index_name : String
  index_mode : String
  host_name_fieldsType : String
  status : String
deriving DecidableEq

/-- Insertion-ordered string-keyed dictionary of lists (Python `dict`). -/
abbrev GroupsOf (β : Type) : Type := List (String × List β)

/-- `d[k].append(v)` after `if k not in d: d[k] = []` (lines 124-127 and
183-186): first insertion fixes the key's position, later values append. -/
def appendToGroup {β : Type} : GroupsOf β → String → β → GroupsOf β
  | [], k, v => [(k, [v])]
  | g :: rest, k, v =>
      if g.1 = k then (g.1, g.2 ++ [v]) :: rest else g :: appendToGroup rest k v

/-- Dictionary lookup `d[k]` / `k in d`. -/
def findGroup {β : Type} : GroupsOf β → String → Option (List β)
  | [], _ => none
  | g :: rest, k => if g.1 = k then some g.2 else findGroup rest k

/-! ### `get_latest_indexes_by_base_name` (lines 81-138) -/

/-- Line 121-122: copy the index dict and record the entry's declared pattern. -/
def augmentIndex (pat : String) (idx : RawIndex) : AugIndex :=
  { index_name := idx.index_name
    index_creation_date := idx.index_creation_date
    index_mode := idx.index_mode
    host_name_fieldsType := idx.host_name_fieldsType
    original_index_pattern := some pat }

/-- Inner loop (lines 106-127): validate each record of one entry and append
it (augmented) to its base-name group.  A record is skipped when its name or
creation date is falsy, or when the creation date is not all digits. -/
def addIndexes (pat : String) : List RawIndex → GroupsOf AugIndex → GroupsOf AugIndex
  | [], acc => acc
  | idx :: rest, acc =>
      let acc' :=
        if pyFalsy idx.index_name || pyFalsy idx.index_creation_date then acc
        else
          let base_name := extract_index_base_name (idx.index_name.getD "")
          if !pyIsDigitStr (idx.index_creation_date.getD "") then acc
          else appendToGroup acc base_name (augmentIndex pat idx)
      addIndexes pat rest acc'

/-- Outer loop (lines 99-127): entries with a falsy declared pattern are
skipped entirely. -/
def collectGroups : List PatternEntry → GroupsOf AugIndex → GroupsOf AugIndex
  | [], acc => acc
  | item :: rest, acc =>
      let acc' :=
        match item.index_pattern with
        | none => acc
        | some p => if p.isEmpty then acc else addIndexes p item.indexes acc
      collectGroups rest acc'

/-- `indexes_by_base_name` as of line 129: the grouped, validated records. -/
def indexes_by_base_name (elastic_indices_data : List PatternEntry) : GroupsOf AugIndex :=
  collectGroups elastic_indices_data []

/-- Sort key (line 133): `int(x["index_creation_date"])`.  Every record put
into a group has an all-digits creation date, on which Python `int` agrees
with `pyInt`; the `getD`s supply defaults that are never hit in the pipeline. -/
def sortKeyOf (r : AugIndex) : Int :=
  (pyInt (r.index_creation_date.getD "")).getD 0

/-- Stable insert for a descending sort: the new element goes after every
element whose key is `≥` its own (so equal keys keep first-come order). -/
def insertDesc {α : Type} (key : α → Int) (v : α) : List α → List α
  | [] => [v]
  | y :: ys => if key y < key v then v :: y :: ys else y :: insertDesc key v ys

/-- Model of CPython `sorted(l, key=key, reverse=True)`: the unique stable
descending sort (equal keys keep their original relative order). -/
def stableSortDesc {α : Type} (key : α → Int) (l : List α) : List α :=
  l.foldl (fun acc v => insertDesc key v acc) []

/-- `get_latest_indexes_by_base_name` (lines 81-138): group and validate,
then per group sort descending by creation date (stable) and keep the first
`num_latest`. -/
def get_latest_indexes_by_base_name (elastic_indices_data : List PatternEntry)
    (num_latest : Nat) : GroupsOf AugIndex :=
  (indexes_by_base_name elastic_indices_data).map
    (fun g => (g.1, (stableSortDesc sortKeyOf g.2).take num_latest))

/-! ### `analyze_index_details` (lines 140-194) -/

/-- Line 165: `index.get('original_index_pattern', 'Unknown_Pattern')`. -/
def patternKeyOf (index : AugIndex) : String :=
  index.original_index_pattern.getD "Unknown_Pattern"

/-- Lines 167-193 for one record: read the fields with `"N/A"` defaults,
compare both against the required values, pick the icon, build the row. -/
def classifyRecord (required_mode required_host_type all_match_icon partial_match_icon
    no_match_icon : String) (index : AugIndex) : ClassifiedRecord :=
  let index_name := index.index_name.getD "N/A"
  let index_mode := index.index_mode.getD "N/A"
  let host_name_fieldsType := index.host_name_fieldsType.getD "N/A"
  let mode_matches : Bool := index_mode == required_mode
  let host_type_matches : Bool := host_name_fieldsType == required_host_type
  let status_icon :=
    if mode_matches && host_type_matches then all_match_icon
    else if mode_matches || host_type_matches then partial_match_icon
    else no_match_icon
  { index_name := index_name
    index_mode := index_mode
    host_name_fieldsType := host_name_fieldsType
    status := status_icon }

/-- Inner loop of `analyze_index_details` (lines 163-193): classify each
record of one group and append it to the output group keyed by the record's
`original_index_pattern`. -/
def analyzeRecords (required_mode required_host_type all_match_icon partial_match_icon
    no_match_icon : String) :
    List AugIndex → GroupsOf ClassifiedRecord → GroupsOf ClassifiedRecord
  | [], acc => acc
  | index :: rest, acc =>
      analyzeRecords required_mode required_host_type all_match_icon partial_match_icon
        no_match_icon rest
        (appendToGroup acc (patternKeyOf index)
          (classifyRecord required_mode required_host_type all_match_icon
            partial_match_icon no_match_icon index))

/-- Outer loop of `analyze_index_details` (line 162): iterate the input
groups in dictionary order. -/
def analyzeGroups (required_mode required_host_type all_match_icon partial_match_icon
    no_match_icon : String) :
    GroupsOf AugIndex → GroupsOf ClassifiedRecord → GroupsOf ClassifiedRecord
  | [], acc => acc
  | g :: rest, acc =>
      analyzeGroups required_mode required_host_type all_match_icon partial_match_icon
        no_match_icon rest
        (analyzeRecords required_mode required_host_type all_match_icon partial_match_icon
          no_match_icon g.2 acc)

/-- `analyze_index_details` (lines 140-194). -/
def analyze_index_details (processed_indexes_by_base_name : GroupsOf AugIndex)
    (required_mode required_host_type all_match_icon partial_match_icon
    no_match_icon : String) : GroupsOf ClassifiedRecord :=
  analyzeGroups required_mode required_host_type all_match_icon partial_match_icon
    no_match_icon processed_indexes_by_base_name []

/-- All records of the input groups in iteration order (dictionary order of
groups, list order inside each group). -/
def flattenGroups {β : Type} (gs : GroupsOf β) : List β :=
  (gs.map (fun g => g.2)).flatten

/-! ### Renderers (lines 196-259) and `__main__` (lines 262-309)

Console output is modelled as a list of structured lines (`OutLine`); the
fixed-width text formatting of each printed line is not load-bearing for any
claim and is kept as the line's payload fields.  File reading and JSON parsing
(`load_data_from_json`, lines 56-79) are environment effects: they are
abstracted into a `LoadResult` — the three ways line 280 can continue
(`FileNotFoundError` raised, `json.JSONDecodeError` raised, or parsed data).
In the two error cases `load_data_from_json` prints its error message and
re-raises; `__main__` catches both and calls `exit(1)`. -/

/-- One printed line, by source print statement. -/
inductive OutLine where
  | errFileNotFound
  | errInvalidJson
  | errUnexpected
  | skipRawNote
  | rawHeader
  | rawEmpty
  | rawBaseName (b : String)
  | rawNoIndexes
  | rawIndexLine (name pattern date : String)
  | tablesHeader
  | tablesEmpty
  | patternHeader (p : String)
  | tableColumnHeader
  | tableSeparator
  | tableRow (r : ClassifiedRecord)
  | tableNoIndexes
deriving DecidableEq

/-- Outcome of `load_data_from_json(FILE_NAME)` at line 280. -/
inductive LoadResult where
  | fileNotFound
  | invalidJson
  | ok (data : List PatternEntry)

/-- Lines 209-214: one printed line per retained record; the readable date
can raise (uncaught `OverflowError` in `get_readable_date`), which aborts the
loop.  Returns the lines printed so far and whether an exception escaped. -/
def rawIndexLines (fromts : Int → FromTsOutcome) :
    List AugIndex → List OutLine × Bool
  | [] => ([], false)
  | idx :: rest =>
      match get_readable_date fromts (idx.index_creation_date.getD "N/A") with
      | .raises => ([], true)
      | .ok d =>
          let r := rawIndexLines fromts rest
          (OutLine.rawIndexLine (idx.index_name.getD "N/A")
            (idx.original_index_pattern.getD "N/A") d :: r.1, r.2)

/-- Lines 204-214: per base name, header line then the record lines (or the
empty-group placeholder). -/
def rawGroupsLines (fromts : Int → FromTsOutcome) :
    GroupsOf AugIndex → List OutLine × Bool
  | [] => ([], false)
  | g :: rest =>
      if g.2.isEmpty then
        let r := rawGroupsLines fromts rest
        (OutLine.rawBaseName g.1 :: OutLine.rawNoIndexes :: r.1, r.2)
      else
        let r1 := rawIndexLines fromts g.2
        if r1.2 then (OutLine.rawBaseName g.1 :: r1.1, true)
        else
          let r := rawGroupsLines fromts rest
          (OutLine.rawBaseName g.1 :: r1.1 ++ r.1, r.2)

/-- `print_raw_latest_indexes_by_base_name` (lines 196-214). -/
def print_raw_latest_indexes_by_base_name (fromts : Int → FromTsOutcome)
    (processed_data_input : GroupsOf AugIndex) : List OutLine × Bool :=
  if processed_data_input.isEmpty then ([OutLine.rawHeader, OutLine.rawEmpty], false)
  else
    let r := rawGroupsLines fromts processed_data_input
    (OutLine.rawHeader :: r.1, r.2)

/-- Lines 244-259: per original pattern, a sub-table (header, separator,
rows) or the empty placeholder. -/
def patternTableLines (g : String × List ClassifiedRecord) : List OutLine :=
  OutLine.patternHeader g.1 ::
    (if g.2.isEmpty then [OutLine.tableNoIndexes]
     else OutLine.tableColumnHeader :: OutLine.tableSeparator :: g.2.map OutLine.tableRow)

/-- `print_formatted_tables_by_pattern` (lines 217-259). -/
def print_formatted_tables_by_pattern (grouped_details_input : GroupsOf ClassifiedRecord) :
    List OutLine :=
  OutLine.tablesHeader ::
    (if grouped_details_input.isEmpty then [OutLine.tablesEmpty]
     else (grouped_details_input.map patternTableLines).flatten)

/-- `__main__` (lines 262-309): printed lines and exit status.  `exit(1)` on
a load failure (after the loader's own message) or on an unexpected exception
(line 307-309, reachable via the readable-date overflow); implicit exit 0
otherwise. -/
def runMain (fromts : Int → FromTsOutcome) (load : LoadResult)
    (show_raw_dates : Bool) : List OutLine × Nat :=
  match load with
  | .fileNotFound => ([OutLine.errFileNotFound], 1)
  | .invalidJson => ([OutLine.errInvalidJson], 1)
  | .ok data =>
      let processed := get_latest_indexes_by_base_name data NUM_LATEST_INDEXES_PER_BASE_NAME
      let raw :=
        if show_raw_dates then print_raw_latest_indexes_by_base_name fromts processed
        else ([OutLine.skipRawNote], false)
      if raw.2 then (raw.1 ++ [OutLine.errUnexpected], 1)
      else
        let analyzed := analyze_index_details processed REQUIRED_INDEX_MODE
          REQUIRED_HOST_NAME_FIELD_TYPE STATUS_ICON_ALL_MATCH STATUS_ICON_PARTIAL_MATCH
          STATUS_ICON_NO_MATCH
        (raw.1 ++ print_formatted_tables_by_pattern analyzed, 0)

/-! ### Claim-side predicate and concrete data used by witnesses -/

/-- Modelled from the spec: "ending with a segment matching
`-<4 digits>.<2 digits>.<2 digits>-<6 digits>` optionally followed by
`-<digits>`", read with the suffix at the very end of the string (the spec
says the pattern is "anchored at the end of the string").  This differs from
the code's `matchesDateSeq` only in not accepting Python `$`'s
just-before-a-final-newline position. -/
def specDateSeqSuffix (t : List Char) : Bool :=
  isDateSeqCore (t.take 18) &&
    ((t.drop 18).isEmpty ||
      ((t.drop 18).head? == some '-' && !(t.drop 18).tail.isEmpty &&
        (t.drop 18).tail.all Char.isDigit))

/-- The decimal string for `10^400`: a numeric timestamp whose division by
1000 certainly overflows the float range. -/
def hugeTimestampStr : String := ⟨'1' :: List.replicate 400 '0'⟩

/-- Example records: two valid records sharing base name `"logs"` (one fully
compliant, one not), plus an invalid record (non-digit creation date). -/
def exRaw1 : RawIndex :=
  { index_name := some "logs-2024.01.15-000001"
    index_creation_date := some "1700000000000"
    index_mode := some "logsdb"
    host_name_fieldsType := some "keyword" }

def exRaw2 : RawIndex :=
  { index_name := some "logs-2024.01.16-000001"
    index_creation_date := some "1705000000000"
    index_mode := some "standard"
    host_name_fieldsType := none }

def exRaw3 : RawIndex :=
  { index_name := some "bad"
    index_creation_date := some "12x"
    index_mode := none
    host_name_fieldsType := none }

def exData : List PatternEntry :=
  [{ index_pattern := some "logs-*", indexes := [exRaw1, exRaw2, exRaw3] }]

def exAug1 : AugIndex :=
  { index_name := some "logs-2024.01.15-000001"
    index_creation_date := some "1700000000000"
    index_mode := some "logsdb"
    host_name_fieldsType := some "keyword"
    original_index_pattern := some "logs-*" }

def exAug2 : AugIndex :=
  { index_name := some "logs-2024.01.16-000001"
    index_creation_date := some "1705000000000"
    index_mode := some "standard"
    host_name_fieldsType := none
    original_index_pattern := some "logs-*" }

/-- Classified version of `exAug1` under the program's configuration. -/
def exCls1 : ClassifiedRecord :=
  classifyRecord REQUIRED_INDEX_MODE REQUIRED_HOST_NAME_FIELD_TYPE
    STATUS_ICON_ALL_MATCH STATUS_ICON_PARTIAL_MATCH STATUS_ICON_NO_MATCH exAug1

/-- Classified version of `exAug2` under the program's configuration. -/
def exCls2 : ClassifiedRecord :=
  classifyRecord REQUIRED_INDEX_MODE REQUIRED_HOST_NAME_FIELD_TYPE
    STATUS_ICON_ALL_MATCH STATUS_ICON_PARTIAL_MATCH STATUS_ICON_NO_MATCH exAug2

/-- A record lacking the `original_index_pattern` key. -/
def exAugNoPat : AugIndex :=
  { index_name := some "orphan-2024.01.15-000001"
    index_creation_date := some "1700000000000"
    index_mode := some "logsdb"
    host_name_fieldsType := some "keyword"
    original_index_pattern := none }

/-! ## Lemmas: dictionary operations -/

theorem findGroup_appendToGroup {β : Type} (acc : GroupsOf β) (k' k : String) (v : β) :
    findGroup (appendToGroup acc k' v) k =
      if k' = k then some (((findGroup acc k).getD []) ++ [v]) else findGroup acc k := by
  induction acc with
  | nil => by_cases h : k' = k <;> simp [appendToGroup, findGroup, h]
  | cons g rest ih =>
      by_cases hg : g.1 = k'
      · by_cases hk : g.1 = k
        · simp [appendToGroup, findGroup, hg, hk, hg ▸ hk]
        · have : ¬k' = k := fun h => hk (hg.trans h)
          simp [appendToGroup, findGroup, hg, hk, this]
      · by_cases hk : g.1 = k
        · have h1 : ¬k' = k := fun h => hg (hk.trans h.symm)
          have h2 : ¬k = k' := fun h => h1 h.symm
          simp [appendToGroup, findGroup, hg, hk, h1, h2]
        · simp [appendToGroup, findGroup, hg, hk, ih]

theorem findGroup_mem {β : Type} (acc : GroupsOf β) (k : String) (l : List β)
    (h : findGroup acc k = some l) : (k, l) ∈ acc := by
  induction acc with
  | nil => simp [findGroup] at h
  | cons g rest ih =>
      by_cases hg : g.1 = k
      · simp [findGroup, hg] at h
        subst hg h
        exact List.mem_cons_self ..
      · simp [findGroup, hg] at h
        exact List.mem_cons_of_mem _ (ih h)

theorem findGroup_mapVal {α β : Type} (f : List α → List β) (gs : GroupsOf α) (k : String) :
    findGroup (gs.map (fun g => (g.1, f g.2))) k = (findGroup gs k).map f := by
  induction gs with
  | nil => simp [findGroup]
  | cons g rest ih =>
      by_cases hg : g.1 = k <;> simp [findGroup, hg, ih]

theorem appendToGroup_forall {β : Type} (P : β → Prop) (acc : GroupsOf β) (k : String) (v : β)
    (hacc : ∀ g ∈ acc, ∀ r ∈ g.2, P r) (hv : P v) :
    ∀ g ∈ appendToGroup acc k v, ∀ r ∈ g.2, P r := by
  induction acc with
  | nil =>
      intro g hg r hr
      simp [appendToGroup] at hg
      subst hg
      simp at hr
      exact hr ▸ hv
  | cons g0 rest ih =>
      intro g hg r hr
      by_cases h0 : g0.1 = k
      · simp [appendToGroup, h0] at hg
        rcases hg with hg | hg
        · subst hg
          simp at hr
          rcases hr with hr | hr
          · exact hacc g0 (List.mem_cons_self ..) r hr
          · exact hr ▸ hv
        · exact hacc g (List.mem_cons_of_mem _ hg) r hr
      · simp only [appendToGroup, h0, if_false] at hg
        rcases List.mem_cons.mp hg with hg | hg
        · exact hacc g (hg ▸ List.mem_cons_self ..) r hr
        · exact ih (fun g hg => hacc g (List.mem_cons_of_mem _ hg)) g hg r hr

/-! ## Lemmas: the stable descending sort -/

theorem insertDesc_mem {α : Type} (key : α → Int) (v x : α) (l : List α) :
    x ∈ insertDesc key v l ↔ x = v ∨ x ∈ l := by
  induction l with
  | nil => simp [insertDesc]
  | cons y ys ih =>
      by_cases h : key y < key v
      · simp [insertDesc, h]
      · simp [insertDesc, h, ih]
        tauto

theorem insertDesc_pairwise {α : Type} (key : α → Int) (v : α) (l : List α)
    (h : l.Pairwise (fun a b => key b ≤ key a)) :
    (insertDesc key v l).Pairwise (fun a b => key b ≤ key a) := by
  induction l with
  | nil => simp [insertDesc]
  | cons y ys ih =>
      rcases List.pairwise_cons.mp h with ⟨hy, hys⟩
      have hins : insertDesc key v (y :: ys) =
          if key y < key v then v :: y :: ys else y :: insertDesc key v ys := rfl
      by_cases hlt : key y < key v
      · rw [hins, if_pos hlt]
        refine List.pairwise_cons.mpr ⟨?_, h⟩
        intro z hz
        rcases List.mem_cons.mp hz with hz | hz
        · exact hz ▸ le_of_lt hlt
        · exact le_trans (hy z hz) (le_of_lt hlt)
      · rw [hins, if_neg hlt]
        refine List.pairwise_cons.mpr ⟨?_, ih hys⟩
        intro z hz
        rcases (insertDesc_mem key v z ys).mp hz with hz | hz
        · exact hz ▸ le_of_not_lt hlt
        · exact hy z hz

theorem insertDesc_filter {α : Type} (key : α → Int) (v : α) (l : List α) (m : Int)
    (h : l.Pairwise (fun a b => key b ≤ key a)) :
    (insertDesc key v l).filter (fun r => key r == m) =
      l.filter (fun r => key r == m) ++ (if key v == m then [v] else []) := by
  induction l with
  | nil => by_cases hv : key v = m <;> simp [insertDesc, hv]
  | cons y ys ih =>
      rcases List.pairwise_cons.mp h with ⟨hy, hys⟩
      have hins : insertDesc key v (y :: ys) =
          if key y < key v then v :: y :: ys else y :: insertDesc key v ys := rfl
      by_cases hlt : key y < key v
      · rw [hins, if_pos hlt]
        by_cases hv : key v = m
        · have hnil : (y :: ys).filter (fun r => key r == m) = [] := by
            refine List.filter_eq_nil_iff.mpr ?_
            intro z hz
            have hzle : key z ≤ key y := by
              rcases List.mem_cons.mp hz with hz | hz
              · exact hz ▸ le_refl _
              · exact hy z hz
            have : key z < m := hv ▸ lt_of_le_of_lt hzle hlt
            simp [Int.ne_of_lt this]
          rw [List.filter_cons_of_pos (by simp [hv]), hnil]
          simp [hv]
        · rw [List.filter_cons_of_neg (by simp [hv])]
          simp [hv]
      · rw [hins, if_neg hlt]
        by_cases hyv : key y = m
        · rw [List.filter_cons_of_pos (by simp [hyv]), ih hys,
            List.filter_cons_of_pos (by simp [hyv])]
          simp
        · rw [List.filter_cons_of_neg (by simp [hyv]), ih hys,
            List.filter_cons_of_neg (by simp [hyv])]

theorem sortLoop_mem {α : Type} (key : α → Int) (l acc : List α) (x : α)
    (h : x ∈ l.foldl (fun acc v => insertDesc key v acc) acc) : x ∈ acc ∨ x ∈ l := by
  induction l generalizing acc with
  | nil => exact Or.inl h
  | cons v rest ih =>
      rcases ih (insertDesc key v acc) h with h1 | h1
      · rcases (insertDesc_mem key v x acc).mp h1 with h2 | h2
        · exact Or.inr (h2 ▸ List.mem_cons_self ..)
        · exact Or.inl h2
      · exact Or.inr (List.mem_cons_of_mem _ h1)

theorem sortLoop_pairwise {α : Type} (key : α → Int) (l acc : List α)
    (h : acc.Pairwise (fun a b => key b ≤ key a)) :
    (l.foldl (fun acc v => insertDesc key v acc) acc).Pairwise
      (fun a b => key b ≤ key a) := by
  induction l generalizing acc with
  | nil => exact h
  | cons v rest ih => exact ih _ (insertDesc_pairwise key v acc h)

theorem sortLoop_filter {α : Type} (key : α → Int) (l acc : List α) (m : Int)
    (h : acc.Pairwise (fun a b => key b ≤ key a)) :
    (l.foldl (fun acc v => insertDesc key v acc) acc).filter (fun r => key r == m) =
      acc.filter (fun r => key r == m) ++ l.filter (fun r => key r == m) := by
  induction l generalizing acc with
  | nil => simp
  | cons v rest ih =>
      have step := ih (insertDesc key v acc) (insertDesc_pairwise key v acc h)
      by_cases hv : key v = m
      · simp only [List.foldl_cons] at step ⊢
        rw [step, insertDesc_filter key v acc m h]
        simp [hv]
      · simp only [List.foldl_cons] at step ⊢
        rw [step, insertDesc_filter key v acc m h]
        simp [hv]

theorem stableSortDesc_mem {α : Type} (key : α → Int) (l : List α) (x : α)
    (h : x ∈ stableSortDesc key l) : x ∈ l := by
  rcases sortLoop_mem key l [] x h with h1 | h1
  · simp at h1
  · exact h1

theorem stableSortDesc_pairwise {α : Type} (key : α → Int) (l : List α) :
    (stableSortDesc key l).Pairwise (fun a b => key b ≤ key a) :=
  sortLoop_pairwise key l [] (List.Pairwise.nil)

theorem stableSortDesc_filter {α : Type} (key : α → Int) (l : List α) (m : Int) :
    (stableSortDesc key l).filter (fun r => key r == m) =
      l.filter (fun r => key r == m) := by
  have := sortLoop_filter key l [] m List.Pairwise.nil
  simpa [stableSortDesc] using this

/-! ## Lemmas: the base-name extractor

The regex `-\d{4}\.\d{2}\.\d{2}-\d{6}(?:-\d+)?$` can match at most one
position of any string: a literal `'.'` occurs in a matching suffix only at
offsets 5 and 8, which pins down the match start.  Hence the leftmost match
found by `re.search` is the unique matching suffix. -/

theorem stripFinalNewline_cases (r : List Char) :
    r = stripFinalNewline r ∨ r = stripFinalNewline r ++ ['\x0a'] := by
  unfold stripFinalNewline
  by_cases h : r.getLast? = some '\x0a'
  · right
    rw [if_pos h]
    have hne : r ≠ [] := by intro he; rw [he] at h; simp at h
    have hl : r.getLast hne = '\x0a' := by
      have := List.getLast?_eq_getLast r hne
      rw [this] at h
      exact Option.some.inj h
    conv_lhs => rw [← List.dropLast_append_getLast hne, hl]
  · left
    rw [if_neg h]

theorem tailOK_chars (r : List Char) (h : tailOK r = true) (c : Char) (hc : c ∈ r) :
    c = '-' ∨ c = '\x0a' ∨ c.isDigit = true := by
  have hsplit := stripFinalNewline_cases r
  simp only [tailOK, Bool.or_eq_true, Bool.and_eq_true, beq_iff_eq] at h
  rcases h with h | ⟨⟨hhead, hne⟩, hdig⟩
  · have hnil : stripFinalNewline r = [] := List.isEmpty_iff.mp h
    rcases hsplit with hr | hr
    · rw [hr, hnil] at hc
      simp at hc
    · rw [hr, hnil] at hc
      simp at hc
      exact Or.inr (Or.inl hc)
  · have hmem : c ∈ stripFinalNewline r ∨ c = '\x0a' := by
      rcases hsplit with hr | hr
      · exact Or.inl (hr ▸ hc)
      · rw [hr] at hc
        rcases List.mem_append.mp hc with h1 | h1
        · exact Or.inl h1
        · simp at h1
          exact Or.inr h1
    rcases hmem with hmem | hmem
    · rcases hs : stripFinalNewline r with - | ⟨c0, t⟩
      · rw [hs] at hmem; simp at hmem
      · rw [hs] at hhead hdig hmem
        simp at hhead
        rcases List.mem_cons.mp hmem with h1 | h1
        · exact Or.inl (h1.trans hhead)
        · exact Or.inr (Or.inr (by simpa using List.all_eq_true.mp (by simpa using hdig) c h1))
    · exact Or.inr (Or.inl hmem)

theorem core_dot_pos (u : List Char) (hcore : isDateSeqCore (u.take 18) = true)
    (j : Nat) (hj : j < 18) (hc : u[j]? = some '.') : j = 5 ∨ j = 8 := by
  have hc' : (u.take 18)[j]? = some '.' := by
    rw [List.getElem?_take]
    simp [hj, hc]
  simp only [isDateSeqCore, isCharAt, isDigitAt, Bool.and_eq_true, beq_iff_eq] at hcore
  have d1 : ('.' : Char).isDigit = false := by decide
  have d2 : some ('.' : Char) ≠ some '-' := by decide
  interval_cases j <;> simp_all

theorem dot_pos (u : List Char) (hu : matchesDateSeq u = true) (j : Nat)
    (hj : u[j]? = some '.') : j = 5 ∨ j = 8 := by
  simp only [matchesDateSeq, Bool.and_eq_true] at hu
  obtain ⟨hcore, htail⟩ := hu
  rcases Nat.lt_or_ge j 18 with h18 | h18
  · exact core_dot_pos u hcore j h18 hj
  · exfalso
    have hdrop : (u.drop 18)[j - 18]? = some '.' := by
      rw [List.getElem?_drop]
      have he : 18 + (j - 18) = j := by omega
      rw [he]
      exact hj
    have hmem : '.' ∈ u.drop 18 := List.getElem?_mem hdrop
    rcases tailOK_chars _ htail _ hmem with h | h | h <;> revert h <;> decide

theorem matches_dot (t : List Char) (h : matchesDateSeq t = true) :
    t[5]? = some '.' ∧ t[8]? = some '.' := by
  simp only [matchesDateSeq, Bool.and_eq_true] at h
  obtain ⟨hcore, -⟩ := h
  simp only [isDateSeqCore, isCharAt, isDigitAt, Bool.and_eq_true, beq_iff_eq] at hcore
  have h5 : (t.take 18)[5]? = some '.' := hcore.1.1.1.1.1.1.1.1.1.1.1.1.2
  have h8 : (t.take 18)[8]? = some '.' := hcore.1.1.1.1.1.1.1.1.1.2
  rw [List.getElem?_take] at h5 h8
  constructor
  · simpa using h5
  · simpa using h8

theorem no_longer_match (x t : List Char) (ht : matchesDateSeq t = true)
    (hu : matchesDateSeq (x ++ t) = true) : x = [] := by
  rcases hx : x with - | ⟨hd, tl⟩
  · rfl
  · exfalso
    subst hx
    set k := (hd :: tl).length with hk
    have hk1 : 1 ≤ k := by simp [hk]
    obtain ⟨t5, t8⟩ := matches_dot t ht
    have u5 : (hd :: tl ++ t)[k + 5]? = some '.' := by
      rw [show (hd :: tl ++ t) = (hd :: tl) ++ t from rfl,
        List.getElem?_append_right (by omega),
        show k + 5 - (hd :: tl).length = 5 from by omega]
      exact t5
    rcases dot_pos _ hu _ u5 with h | h
    · omega
    · have hk3 : k = 3 := by omega
      have u8 : (hd :: tl ++ t)[11]? = some '.' := by
        rw [show (hd :: tl ++ t) = (hd :: tl) ++ t from rfl,
          List.getElem?_append_right (by omega),
          show 11 - (hd :: tl).length = 8 from by omega]
        exact t8
      rcases dot_pos _ hu _ u8 with h | h <;> omega

theorem matchesDateSeq_ne_nil (t : List Char) (h : matchesDateSeq t = true) : t ≠ [] := by
  intro he
  obtain ⟨t5, -⟩ := matches_dot t h
  rw [he] at t5
  simp at t5

theorem findMatchPos_append (p t : List Char) (ht : matchesDateSeq t = true) :
    findMatchPos (p ++ t) = some p.length := by
  induction p with
  | nil =>
      rcases hx : t with - | ⟨c, cs⟩
      · exact absurd hx (matchesDateSeq_ne_nil t ht)
      · subst hx
        simp [findMatchPos, ht]
  | cons c p ih =>
      have hne : matchesDateSeq (c :: (p ++ t)) = false := by
        by_contra h
        have h' : matchesDateSeq ((c :: p) ++ t) = true := by
          simpa using Bool.of_not_eq_false h
        have := no_longer_match (c :: p) t ht h'
        simp at this
      rw [show (c :: p) ++ t = c :: (p ++ t) from rfl]
      rw [findMatchPos, if_neg (by simp [hne]), ih]
      rfl

theorem findMatchPos_none (s : List Char)
    (h : ∀ p t, s = p ++ t → matchesDateSeq t = false) : findMatchPos s = none := by
  induction s with
  | nil => rfl
  | cons c cs ih =>
      have h0 : matchesDateSeq (c :: cs) = false := h [] (c :: cs) rfl
      rw [findMatchPos, if_neg (by simp [h0]), ih]
      · rfl
      · intro p t hpt
        exact h (c :: p) t (by rw [hpt]; rfl)

theorem splits_of_rangeAll (s : List Char) (q : List Char → Bool)
    (h : (List.range (s.length + 1)).all (fun i => !(q (s.drop i))) = true) :
    ∀ p t, s = p ++ t → q t = false := by
  intro p t hpt
  have hlen : p.length ≤ s.length := by
    rw [hpt, List.length_append]
    omega
  have hdrop : t = s.drop p.length := by
    rw [hpt, List.drop_left]
  have := List.all_eq_true.mp h p.length (List.mem_range.mpr (by omega))
  rw [← hdrop] at this
  simpa using this

/-! ## Lemmas: characterization of `analyze_index_details`

The nested loop of the classifier is an order-preserving regrouping: the
output group at key `k` is exactly the classification of all input records
(in iteration order) whose `original_index_pattern` display key is `k`. -/

/-- Combine an existing optional group with newly appended values: a key
exists in the dict iff at least one value was appended under it. -/
def mergeOpt {β : Type} (o : Option (List β)) (m : List β) : Option (List β) :=
  match o, m with
  | none, [] => none
  | none, m => some m
  | some v, m => some (v ++ m)

theorem mergeOpt_nil {β : Type} (o : Option (List β)) : mergeOpt o [] = o := by
  rcases o with - | v <;> simp [mergeOpt]

theorem mergeOpt_append {β : Type} (o : Option (List β)) (m1 m2 : List β) :
    mergeOpt (mergeOpt o m1) m2 = mergeOpt o (m1 ++ m2) := by
  rcases o with - | v
  · rcases m1 with - | ⟨x, m1⟩
    · simp [mergeOpt]
    · rcases m2 with - | ⟨y, m2⟩ <;> simp [mergeOpt]
  · rcases m1 with - | ⟨x, m1⟩ <;> rcases m2 with - | ⟨y, m2⟩ <;> simp [mergeOpt]

theorem findGroup_analyzeRecords (required_mode required_host_type all_match_icon
    partial_match_icon no_match_icon : String) (l : List AugIndex)
    (acc : GroupsOf ClassifiedRecord) (k : String) :
    findGroup (analyzeRecords required_mode required_host_type all_match_icon
        partial_match_icon no_match_icon l acc) k =
      mergeOpt (findGroup acc k)
        ((l.filter (fun r => patternKeyOf r == k)).map
          (classifyRecord required_mode required_host_type all_match_icon
            partial_match_icon no_match_icon)) := by
  induction l generalizing acc with
  | nil => simp [analyzeRecords, mergeOpt_nil]
  | cons index rest ih =>
      rw [analyzeRecords, ih, findGroup_appendToGroup]
      by_cases hk : patternKeyOf index = k
      · rw [if_pos hk, List.filter_cons_of_pos (by simp [hk]), List.map_cons]
        rcases hacc : findGroup acc k with - | v
        · simp [mergeOpt]
        · simp [mergeOpt]
      · rw [if_neg hk, List.filter_cons_of_neg (by simp [hk])]

theorem findGroup_analyzeGroups (required_mode required_host_type all_match_icon
    partial_match_icon no_match_icon : String) (gs : GroupsOf AugIndex)
    (acc : GroupsOf ClassifiedRecord) (k : String) :
    findGroup (analyzeGroups required_mode required_host_type all_match_icon
        partial_match_icon no_match_icon gs acc) k =
      mergeOpt (findGroup acc k)
        (((flattenGroups gs).filter (fun r => patternKeyOf r == k)).map
          (classifyRecord required_mode required_host_type all_match_icon
            partial_match_icon no_match_icon)) := by
  induction gs generalizing acc with
  | nil => simp [analyzeGroups, flattenGroups, mergeOpt_nil]
  | cons g rest ih =>
      rw [analyzeGroups, ih, findGroup_analyzeRecords,
        show flattenGroups (g :: rest) = g.2 ++ flattenGroups rest from by
          simp [flattenGroups],
        List.filter_append, List.map_append, mergeOpt_append]

theorem findGroup_analyze (processed : GroupsOf AugIndex) (required_mode
    required_host_type all_match_icon partial_match_icon no_match_icon k : String) :
    findGroup (analyze_index_details processed required_mode required_host_type
        all_match_icon partial_match_icon no_match_icon) k =
      mergeOpt none
        (((flattenGroups processed).filter (fun r => patternKeyOf r == k)).map
          (classifyRecord required_mode required_host_type all_match_icon
            partial_match_icon no_match_icon)) := by
  rw [analyze_index_details, findGroup_analyzeGroups]
  rfl

/-! ## Lemmas: validity of all grouped records (grouping phase) -/

/-- Every record the grouping phase retains passed the three validations of
lines 103, 110 and 117. -/
def ValidAug (r : AugIndex) : Prop :=
  (∃ nm, r.index_name = some nm ∧ nm ≠ "") ∧
  (∃ d, r.index_creation_date = some d ∧ pyIsDigitStr d = true) ∧
  (∃ p, r.original_index_pattern = some p ∧ p ≠ "")

theorem addIndexes_valid (pat : String) (hpat : pat ≠ "") (idxs : List RawIndex)
    (acc : GroupsOf AugIndex) (hacc : ∀ g ∈ acc, ∀ r ∈ g.2, ValidAug r) :
    ∀ g ∈ addIndexes pat idxs acc, ∀ r ∈ g.2, ValidAug r := by
  induction idxs generalizing acc with
  | nil => exact hacc
  | cons idx rest ih =>
      rw [addIndexes]
      apply ih
      by_cases h1 : (pyFalsy idx.index_name || pyFalsy idx.index_creation_date) = true
      · simpa [h1] using hacc
      · by_cases h2 : pyIsDigitStr (idx.index_creation_date.getD "") = true
        · simp only [h1, if_false, h2, Bool.not_true, if_false]
          apply appendToGroup_forall _ _ _ _ hacc
          simp only [Bool.or_eq_true, not_or] at h1
          obtain ⟨hn, hd⟩ := h1
          refine ⟨?_, ?_, pat, rfl, hpat⟩
          · rcases hnm : idx.index_name with - | nm
            · rw [hnm] at hn; simp [pyFalsy] at hn
            · refine ⟨nm, by simp [augmentIndex, hnm], ?_⟩
              rw [hnm] at hn
              simp [pyFalsy, String.isEmpty_iff] at hn
              exact hn
          · rcases hdt : idx.index_creation_date with - | d
            · rw [hdt] at hd; simp [pyFalsy] at hd
            · refine ⟨d, by simp [augmentIndex, hdt], ?_⟩
              rw [hdt] at h2
              simpa using h2
        · simp only [h1, if_false]
          have h2' : pyIsDigitStr (idx.index_creation_date.getD "") = false :=
            Bool.not_eq_true _ ▸ h2
          simp only [h2', Bool.not_false, if_true]
          exact hacc

theorem collectGroups_valid (data : List PatternEntry) (acc : GroupsOf AugIndex)
    (hacc : ∀ g ∈ acc, ∀ r ∈ g.2, ValidAug r) :
    ∀ g ∈ collectGroups data acc, ∀ r ∈ g.2, ValidAug r := by
  induction data generalizing acc with
  | nil => exact hacc
  | cons item rest ih =>
      rw [collectGroups]
      apply ih
      rcases hp : item.index_pattern with - | p
      · exact hacc
      · by_cases hpe : p.isEmpty
        · simpa [hpe] using hacc
        · simp only [hpe, if_false]
          exact addIndexes_valid p (by simpa [String.isEmpty_iff] using hpe) _ acc hacc

theorem indexes_by_base_name_valid (data : List PatternEntry) (b : String)
    (l : List AugIndex) (h : findGroup (indexes_by_base_name data) b = some l) :
    ∀ r ∈ l, ValidAug r := by
  have := collectGroups_valid data [] (by simp)
  exact this (b, l) (findGroup_mem _ _ _ h)

/-! ## Claim theorems -/

/-- C3: for every index name ending with a segment matching
`-<4 digits>.<2 digits>.<2 digits>-<6 digits>` optionally followed by
`-<digits>`, `extract_index_base_name` returns the strict prefix of the input
before the start of that match — the input with the matched suffix removed
exactly once. -/
theorem extract_index_base_name_strips_suffix (p t : List Char)
    (h : matchesDateSeq t = true) :
    extract_index_base_name ⟨p ++ t⟩ = ⟨p⟩ := by
  have h1 : extractBase (p ++ t) = p := by
    simp only [extractBase, findMatchPos_append p t h]
    exact List.take_left p t
  show String.mk (extractBase (p ++ t)) = String.mk p
  exact congrArg String.mk h1

/-- Witness for C3 at the spec's two scenarios:
`"metrics-2024.01.15-000001"` and `"metrics-2024.01.15-000001-2"` both map
to `"metrics"`. -/
theorem extract_index_base_name_strips_suffix_witness :
    matchesDateSeq ("-2024.01.15-000001".data) = true ∧
    matchesDateSeq ("-2024.01.15-000001-2".data) = true ∧
    extract_index_base_name ⟨"metrics".data ++ "-2024.01.15-000001".data⟩ =
      ⟨"metrics".data⟩ ∧
    extract_index_base_name ⟨"metrics".data ++ "-2024.01.15-000001-2".data⟩ =
      ⟨"metrics".data⟩ ∧
    extract_index_base_name "metrics-2024.01.15-000001" = "metrics" ∧
    extract_index_base_name "metrics-2024.01.15-000001-2" = "metrics" :=
  ⟨by decide, by decide,
   extract_index_base_name_strips_suffix "metrics".data "-2024.01.15-000001".data
     (by decide),
   extract_index_base_name_strips_suffix "metrics".data "-2024.01.15-000001-2".data
     (by decide),
   by decide, by decide⟩

/-- C8 counterexample: `"a-2024.01.15-000001\n"` does not end with the
date-sequence suffix pattern (no suffix satisfies the spec-side predicate,
checked over every split point), yet `extract_index_base_name` changes it:
Python's `$` also matches just before a final newline. -/
theorem extractor_identity_claim_counterexample :
    (List.range (("a-2024.01.15-000001\n".data).length + 1)).all
        (fun i => !(specDateSeqSuffix (("a-2024.01.15-000001\n".data).drop i))) = true ∧
    extract_index_base_name "a-2024.01.15-000001\n" ≠ "a-2024.01.15-000001\n" :=
  ⟨by decide, by decide⟩

/-- C8 (amended): for every index name in which the regex finds no match —
no suffix matches `-\d{4}\.\d{2}\.\d{2}-\d{6}(?:-\d+)?` at the end of the
string or just before one final newline (Python `$` semantics) —
`extract_index_base_name` returns its input unchanged, and applying it twice
equals applying it once. -/
theorem extractor_identity_no_regex_match (s : List Char)
    (h : ∀ p t, s = p ++ t → matchesDateSeq t = false) :
    extract_index_base_name ⟨s⟩ = ⟨s⟩ ∧
    extract_index_base_name (extract_index_base_name ⟨s⟩) =
      extract_index_base_name ⟨s⟩ := by
  have h1 : extractBase s = s := by
    simp only [extractBase, findMatchPos_none s h]
  have h2 : extract_index_base_name ⟨s⟩ = ⟨s⟩ := by
    show String.mk (extractBase s) = String.mk s
    exact congrArg String.mk h1
  exact ⟨h2, by rw [h2, h2]⟩

/-- Witness for the amended C8 at `"metrics"`. -/
theorem extractor_identity_no_regex_match_witness :
    extract_index_base_name "metrics" = "metrics" ∧
    extract_index_base_name (extract_index_base_name "metrics") =
      extract_index_base_name "metrics" :=
  extractor_identity_no_regex_match "metrics".data
    (splits_of_rangeAll "metrics".data matchesDateSeq (by decide))

set_option maxRecDepth 8000 in
/-- C9: `get_readable_date` returns `"Invalid Date"` for an unparseable
input (the `ValueError` of `int` is caught), but on the numeric input
`10^400` the true division by 1000 raises an uncaught `OverflowError`, which
escapes the function — contradicting the function's own docstring and the
claim that it is total and never raises. -/
theorem get_readable_date_overflow_raises (fromts : Int → FromTsOutcome) :
    get_readable_date fromts "not a number" = DateResult.ok "Invalid Date" ∧
    get_readable_date fromts hugeTimestampStr = DateResult.raises := by
  constructor
  · have h : pyInt "not a number" = none := by decide
    simp [get_readable_date, h]
  · have h1 : (match pyInt hugeTimestampStr with
        | none => false
        | some n => pyDivOverflows n) = true := by decide
    rcases hp : pyInt hugeTimestampStr with - | n
    · rw [hp] at h1; simp at h1
    · rw [hp] at h1
      simp only [] at h1
      simp [get_readable_date, hp, h1]

/-- C1: every group of `get_latest_indexes_by_base_name` with maximum count
`n` retains at most `n` records, sorted descending by the parsed integer of
`index_creation_date`; ties keep the original relative order of the grouped
records (stable sort): for every key value, the retained records with that
key are a prefix of the grouped records with that key in insertion order. -/
theorem get_latest_length_sorted_stable (data : List PatternEntry) (n : Nat)
    (b : String) (l : List AugIndex)
    (h : findGroup (get_latest_indexes_by_base_name data n) b = some l) :
    l.length ≤ n ∧
    l.Pairwise (fun x y => sortKeyOf y ≤ sortKeyOf x) ∧
    ∀ m : Int, ∃ rest, l.filter (fun r => sortKeyOf r == m) ++ rest =
      ((findGroup (indexes_by_base_name data) b).getD []).filter
        (fun r => sortKeyOf r == m) := by
  rw [get_latest_indexes_by_base_name,
    findGroup_mapVal (fun v => (stableSortDesc sortKeyOf v).take n)] at h
  rcases hraw : findGroup (indexes_by_base_name data) b with - | raw
  · rw [hraw] at h; simp at h
  · rw [hraw] at h
    have hl : l = (stableSortDesc sortKeyOf raw).take n := by
      simpa using h.symm
    subst hl
    refine ⟨by simp [List.length_take], ?_, ?_⟩
    · exact (stableSortDesc_pairwise sortKeyOf raw).sublist (List.take_sublist ..)
    · intro m
      refine ⟨((stableSortDesc sortKeyOf raw).drop n).filter
        (fun r => sortKeyOf r == m), ?_⟩
      rw [← List.filter_append, List.take_append_drop, stableSortDesc_filter]
      simp

/-- Witness for C1 on `exData` with `n = 2`: the `"logs"` group retains the
two valid records, newest first. -/
theorem get_latest_length_sorted_stable_witness :
    findGroup (get_latest_indexes_by_base_name exData 2) "logs" =
      some [exAug2, exAug1] ∧
    ([exAug2, exAug1].length ≤ 2 ∧
      List.Pairwise (fun x y => sortKeyOf y ≤ sortKeyOf x) [exAug2, exAug1] ∧
      ∀ m : Int, ∃ rest,
        [exAug2, exAug1].filter (fun r => sortKeyOf r == m) ++ rest =
          ((findGroup (indexes_by_base_name exData) "logs").getD []).filter
            (fun r => sortKeyOf r == m)) :=
  ⟨by decide, get_latest_length_sorted_stable exData 2 "logs" [exAug2, exAug1]
    (by decide)⟩

/-- C4: every record retained by `get_latest_indexes_by_base_name` has a
non-empty index name, a creation date composed entirely of digits, and came
from an entry with a non-empty declared pattern — so records lacking those
fields, records with non-digit creation dates, and records of pattern-less
entries are absent from every group of the output. -/
theorem invalid_records_absent (data : List PatternEntry) (n : Nat) (b : String)
    (l : List AugIndex) (r : AugIndex)
    (h : findGroup (get_latest_indexes_by_base_name data n) b = some l)
    (hr : r ∈ l) :
    (∃ nm, r.index_name = some nm ∧ nm ≠ "") ∧
    (∃ d, r.index_creation_date = some d ∧ pyIsDigitStr d = true) ∧
    (∃ p, r.original_index_pattern = some p ∧ p ≠ "") := by
  rw [get_latest_indexes_by_base_name,
    findGroup_mapVal (fun v => (stableSortDesc sortKeyOf v).take n)] at h
  rcases hraw : findGroup (indexes_by_base_name data) b with - | raw
  · rw [hraw] at h; simp at h
  · rw [hraw] at h
    have hl : l = (stableSortDesc sortKeyOf raw).take n := by
      simpa using h.symm
    subst hl
    have hr2 : r ∈ raw :=
      stableSortDesc_mem _ _ _ (List.take_subset _ _ hr)
    exact indexes_by_base_name_valid data b raw hraw r hr2

/-- Witness for C4: the retained record `exAug2` carries valid fields. -/
theorem invalid_records_absent_witness :
    (findGroup (get_latest_indexes_by_base_name exData 2) "logs" =
        some [exAug2, exAug1] ∧ exAug2 ∈ [exAug2, exAug1]) ∧
    ((∃ nm, exAug2.index_name = some nm ∧ nm ≠ "") ∧
      (∃ d, exAug2.index_creation_date = some d ∧ pyIsDigitStr d = true) ∧
      (∃ p, exAug2.original_index_pattern = some p ∧ p ≠ "")) :=
  ⟨⟨by decide, by decide⟩,
   invalid_records_absent exData 2 "logs" [exAug2, exAug1] exAug2 (by decide)
     (by decide)⟩

/-- Helper: a group of the classifier's output is exactly the classification
of the input records (in iteration order) whose display key matches. -/
theorem analyze_group_eq (processed : GroupsOf AugIndex) (required_mode
    required_host_type all_match_icon partial_match_icon no_match_icon k : String)
    (out : List ClassifiedRecord)
    (h : findGroup (analyze_index_details processed required_mode required_host_type
      all_match_icon partial_match_icon no_match_icon) k = some out) :
    out = ((flattenGroups processed).filter (fun r => patternKeyOf r == k)).map
      (classifyRecord required_mode required_host_type all_match_icon
        partial_match_icon no_match_icon) := by
  rw [findGroup_analyze] at h
  rcases hm : ((flattenGroups processed).filter (fun r => patternKeyOf r == k)).map
      (classifyRecord required_mode required_host_type all_match_icon
        partial_match_icon no_match_icon) with - | ⟨c, m⟩
  · rw [hm] at h; simp [mergeOpt] at h
  · rw [hm] at h
    simp only [mergeOpt] at h
    exact (Option.some.inj h).symm

/-- Helper: full case analysis of one record's classification. -/
theorem classifyRecord_analysis (required_mode required_host_type all_match_icon
    partial_match_icon no_match_icon : String) (r : AugIndex)
    (h1 : all_match_icon ≠ partial_match_icon) (h2 : all_match_icon ≠ no_match_icon)
    (h3 : partial_match_icon ≠ no_match_icon) :
    (let c := classifyRecord required_mode required_host_type all_match_icon
        partial_match_icon no_match_icon r
     (c.status = all_match_icon ∨ c.status = partial_match_icon ∨
        c.status = no_match_icon) ∧
     (c.status = all_match_icon ↔
        (c.index_mode = required_mode ∧ c.host_name_fieldsType = required_host_type)) ∧
     (c.status = partial_match_icon ↔
        ((c.index_mode = required_mode ∧ c.host_name_fieldsType ≠ required_host_type) ∨
          (c.index_mode ≠ required_mode ∧ c.host_name_fieldsType = required_host_type))) ∧
     (c.status = no_match_icon ↔
        (c.index_mode ≠ required_mode ∧ c.host_name_fieldsType ≠ required_host_type))) := by
  by_cases hm : r.index_mode.getD "N/A" = required_mode <;>
    by_cases hh : r.host_name_fieldsType.getD "N/A" = required_host_type <;>
      simp [classifyRecord, hm, hh, h1, h2, h3, h1.symm, h2.symm, h3.symm]

/-- C2: classification is total and exhaustive — every record of the
classifier's output carries exactly one of the three (pairwise distinct)
status markers, determined solely by the two equality checks: the all-match
marker iff both fields equal the required values, the partial marker iff
exactly one does, the no-match marker iff neither does. -/
theorem classification_total_exhaustive (processed : GroupsOf AugIndex)
    (required_mode required_host_type all_match_icon partial_match_icon
    no_match_icon : String)
    (h1 : all_match_icon ≠ partial_match_icon) (h2 : all_match_icon ≠ no_match_icon)
    (h3 : partial_match_icon ≠ no_match_icon) (k : String)
    (out : List ClassifiedRecord)
    (h : findGroup (analyze_index_details processed required_mode required_host_type
      all_match_icon partial_match_icon no_match_icon) k = some out)
    (c : ClassifiedRecord) (hc : c ∈ out) :
    (c.status = all_match_icon ∨ c.status = partial_match_icon ∨
      c.status = no_match_icon) ∧
    (c.status = all_match_icon ↔
      (c.index_mode = required_mode ∧ c.host_name_fieldsType = required_host_type)) ∧
    (c.status = partial_match_icon ↔
      ((c.index_mode = required_mode ∧ c.host_name_fieldsType ≠ required_host_type) ∨
        (c.index_mode ≠ required_mode ∧ c.host_name_fieldsType = required_host_type))) ∧
    (c.status = no_match_icon ↔
      (c.index_mode ≠ required_mode ∧ c.host_name_fieldsType ≠ required_host_type)) := by
  rw [analyze_group_eq processed required_mode required_host_type all_match_icon
    partial_match_icon no_match_icon k out h] at hc
  rcases List.mem_map.mp hc with ⟨r, -, hr⟩
  rw [← hr]
  exact classifyRecord_analysis required_mode required_host_type all_match_icon
    partial_match_icon no_match_icon r h1 h2 h3

/-- Witness for C2 on the classifier's output for `exData`, with the
program's three (distinct) icons. -/
theorem classification_total_exhaustive_witness :
    ((STATUS_ICON_ALL_MATCH ≠ STATUS_ICON_PARTIAL_MATCH) ∧
      (STATUS_ICON_ALL_MATCH ≠ STATUS_ICON_NO_MATCH) ∧
      (STATUS_ICON_PARTIAL_MATCH ≠ STATUS_ICON_NO_MATCH) ∧
      findGroup (analyze_index_details (get_latest_indexes_by_base_name exData 2)
          REQUIRED_INDEX_MODE REQUIRED_HOST_NAME_FIELD_TYPE STATUS_ICON_ALL_MATCH
          STATUS_ICON_PARTIAL_MATCH STATUS_ICON_NO_MATCH) "logs-*" =
        some [exCls2, exCls1] ∧
      exCls1 ∈ [exCls2, exCls1]) ∧
    exCls1.status = STATUS_ICON_ALL_MATCH :=
  ⟨⟨by decide, by decide, by decide, by decide, by decide⟩,
   ((classification_total_exhaustive (get_latest_indexes_by_base_name exData 2)
      REQUIRED_INDEX_MODE REQUIRED_HOST_NAME_FIELD_TYPE STATUS_ICON_ALL_MATCH
      STATUS_ICON_PARTIAL_MATCH STATUS_ICON_NO_MATCH (by decide) (by decide)
      (by decide) "logs-*" [exCls2, exCls1] (by decide) exCls1
      (by decide)).2.1).mpr ⟨by decide, by decide⟩⟩

/-- C5: the classifier's output mapping is keyed by each record's
`original_index_pattern` display key: the group at key `k` aggregates, in the
order established by the grouper/selector (groups in dictionary order,
records in retained order), the classified versions of exactly those records
whose recorded original pattern is `k` — regardless of which base-name group
they came from. -/
theorem analyze_groups_by_original_pattern (processed : GroupsOf AugIndex)
    (required_mode required_host_type all_match_icon partial_match_icon
    no_match_icon k : String) (out : List ClassifiedRecord)
    (h : findGroup (analyze_index_details processed required_mode required_host_type
      all_match_icon partial_match_icon no_match_icon) k = some out) :
    out = ((flattenGroups processed).filter (fun r => patternKeyOf r == k)).map
      (classifyRecord required_mode required_host_type all_match_icon
        partial_match_icon no_match_icon) :=
  analyze_group_eq processed required_mode required_host_type all_match_icon
    partial_match_icon no_match_icon k out h

/-- Witness for C5: two base-name groups (`"logs"` and `"metrics"`) sharing
the declared pattern `"logs-*"` are aggregated into one output group. -/
theorem analyze_groups_by_original_pattern_witness :
    findGroup (analyze_index_details [("logs", [exAug2]), ("metrics", [exAug1])]
        "logsdb" "keyword" "A" "P" "N") "logs-*" =
      some [classifyRecord "logsdb" "keyword" "A" "P" "N" exAug2,
        classifyRecord "logsdb" "keyword" "A" "P" "N" exAug1] ∧
    [classifyRecord "logsdb" "keyword" "A" "P" "N" exAug2,
        classifyRecord "logsdb" "keyword" "A" "P" "N" exAug1] =
      ((flattenGroups [("logs", [exAug2]), ("metrics", [exAug1])]).filter
          (fun r => patternKeyOf r == "logs-*")).map
        (classifyRecord "logsdb" "keyword" "A" "P" "N") :=
  ⟨by decide,
   analyze_groups_by_original_pattern [("logs", [exAug2]), ("metrics", [exAug1])]
     "logsdb" "keyword" "A" "P" "N" "logs-*" _ (by decide)⟩

/-- C7: in the classifier (with the program's configured required values
`"logsdb"` and `"keyword"`), a record missing `index_mode` or
`host_name_fieldsType` has the missing field displayed as the literal
`"N/A"`, and — since `"N/A"` equals neither required value — is never
assigned the all-match marker: its status is the partial or no-match icon. -/
theorem missing_field_never_all_match (r : AugIndex)
    (h : r.index_mode = none ∨ r.host_name_fieldsType = none) :
    (let c := classifyRecord REQUIRED_INDEX_MODE REQUIRED_HOST_NAME_FIELD_TYPE
        STATUS_ICON_ALL_MATCH STATUS_ICON_PARTIAL_MATCH STATUS_ICON_NO_MATCH r
     (c.status = STATUS_ICON_PARTIAL_MATCH ∨ c.status = STATUS_ICON_NO_MATCH) ∧
     c.status ≠ STATUS_ICON_ALL_MATCH ∧
     (r.index_mode = none → c.index_mode = "N/A") ∧
     (r.host_name_fieldsType = none → c.host_name_fieldsType = "N/A")) := by
  have hna1 : ("N/A" : String) ≠ REQUIRED_INDEX_MODE := by decide
  have hna2 : ("N/A" : String) ≠ REQUIRED_HOST_NAME_FIELD_TYPE := by decide
  have hd1 : STATUS_ICON_PARTIAL_MATCH ≠ STATUS_ICON_ALL_MATCH := by decide
  have hd2 : STATUS_ICON_NO_MATCH ≠ STATUS_ICON_ALL_MATCH := by decide
  rcases h with h | h
  · rcases hhost : r.host_name_fieldsType with - | hv
    · simp [classifyRecord, h, hhost, hna1, hna2, hd1, hd2]
    · by_cases hv2 : hv = REQUIRED_HOST_NAME_FIELD_TYPE <;>
        simp [classifyRecord, h, hhost, hv2, hna1, hna2, hd1, hd2]
  · rcases hmode : r.index_mode with - | mv
    · simp [classifyRecord, h, hmode, hna1, hna2, hd1, hd2]
    · by_cases mv2 : mv = REQUIRED_INDEX_MODE <;>
        simp [classifyRecord, h, hmode, mv2, hna1, hna2, hd1, hd2]

/-- Witness for C7 at `exAug2`, whose `host_name_fieldsType` is missing. -/
theorem missing_field_never_all_match_witness :
    exAug2.host_name_fieldsType = none ∧
    (let c := classifyRecord REQUIRED_INDEX_MODE REQUIRED_HOST_NAME_FIELD_TYPE
        STATUS_ICON_ALL_MATCH STATUS_ICON_PARTIAL_MATCH STATUS_ICON_NO_MATCH exAug2
     (c.status = STATUS_ICON_PARTIAL_MATCH ∨ c.status = STATUS_ICON_NO_MATCH) ∧
     c.status ≠ STATUS_ICON_ALL_MATCH ∧
     (exAug2.index_mode = none → c.index_mode = "N/A") ∧
     (exAug2.host_name_fieldsType = none → c.host_name_fieldsType = "N/A")) :=
  ⟨rfl, missing_field_never_all_match exAug2 (Or.inr rfl)⟩

/-- C10: a record lacking `original_index_pattern` is neither dropped nor an
error: its classified version is grouped under the literal display key
`"Unknown_Pattern"` in the classifier's output. -/
theorem missing_pattern_grouped_unknown (processed : GroupsOf AugIndex)
    (required_mode required_host_type all_match_icon partial_match_icon
    no_match_icon : String) (b : String) (l : List AugIndex) (r : AugIndex)
    (hb : findGroup processed b = some l) (hr : r ∈ l)
    (hmiss : r.original_index_pattern = none) :
    ∃ out, findGroup (analyze_index_details processed required_mode
        required_host_type all_match_icon partial_match_icon no_match_icon)
        "Unknown_Pattern" = some out ∧
      classifyRecord required_mode required_host_type all_match_icon
        partial_match_icon no_match_icon r ∈ out := by
  have hflat : r ∈ flattenGroups processed := by
    have hbl := findGroup_mem _ _ _ hb
    refine List.mem_flatten.mpr ⟨l, ?_, hr⟩
    have : (b, l).2 ∈ processed.map (fun g => g.2) := List.mem_map_of_mem _ hbl
    simpa [flattenGroups] using this
  have hkey : patternKeyOf r = "Unknown_Pattern" := by simp [patternKeyOf, hmiss]
  have hfil : r ∈ (flattenGroups processed).filter
      (fun x => patternKeyOf x == "Unknown_Pattern") :=
    List.mem_filter.mpr ⟨hflat, by simp [hkey]⟩
  have hmap : classifyRecord required_mode required_host_type all_match_icon
      partial_match_icon no_match_icon r ∈
        ((flattenGroups processed).filter
          (fun x => patternKeyOf x == "Unknown_Pattern")).map
          (classifyRecord required_mode required_host_type all_match_icon
            partial_match_icon no_match_icon) :=
    List.mem_map_of_mem _ hfil
  rw [findGroup_analyze]
  rcases hm : ((flattenGroups processed).filter
      (fun x => patternKeyOf x == "Unknown_Pattern")).map
      (classifyRecord required_mode required_host_type all_match_icon
        partial_match_icon no_match_icon) with - | ⟨c, m⟩
  · rw [hm] at hmap; simp at hmap
  · rw [hm] at hmap
    exact ⟨c :: m, rfl, hmap⟩

/-- Witness for C10 at `exAugNoPat`. -/
theorem missing_pattern_grouped_unknown_witness :
    (findGroup [("orphan", [exAugNoPat])] "orphan" = some [exAugNoPat] ∧
      exAugNoPat ∈ [exAugNoPat] ∧ exAugNoPat.original_index_pattern = none) ∧
    (∃ out, findGroup (analyze_index_details [("orphan", [exAugNoPat])] "logsdb"
        "keyword" "A" "P" "N") "Unknown_Pattern" = some out ∧
      classifyRecord "logsdb" "keyword" "A" "P" "N" exAugNoPat ∈ out) :=
  ⟨⟨by decide, by decide, rfl⟩,
   missing_pattern_grouped_unknown [("orphan", [exAugNoPat])] "logsdb" "keyword"
     "A" "P" "N" "orphan" [exAugNoPat] exAugNoPat (by decide) (by decide) rfl⟩

/-- C6: when loading fails — file not found, or content not valid JSON —
the program prints exactly the corresponding loader error message and exits
with status 1; in particular no table output (and no raw summary) is
printed, with no retry or fallback. -/
theorem load_failure_exits_one_no_tables (fromts : Int → FromTsOutcome) (b : Bool) :
    runMain fromts LoadResult.fileNotFound b = ([OutLine.errFileNotFound], 1) ∧
    runMain fromts LoadResult.invalidJson b = ([OutLine.errInvalidJson], 1) ∧
    OutLine.tablesHeader ∉ (runMain fromts LoadResult.fileNotFound b).1 ∧
    OutLine.tablesHeader ∉ (runMain fromts LoadResult.invalidJson b).1 := by
  refine ⟨rfl, rfl, ?_, ?_⟩ <;> simp [runMain]

end ElasticExport
